import Mathlib

/-!
Verification development for the `WandbLogger` logging façade
(`src/utils/log.py` of the trust-region-layers repository).

The Python module is embedded shallowly:

* filesystem paths are lists of components (`FPath`); the string path
  `"a/b/c"` corresponds to the component list `["a", "b", "c"]`;
* the local filesystem is an explicit list of existing paths with their
  node kinds (`FileSystem`); `os` / `shutil` calls become pure state
  transformers on it;
* the remote tracking service is an explicit `RemoteState` holding the
  metric records, the artifact uploads and the artifact versions the
  server has seen; the wandb client calls become pure state transformers;
* `exit()` in `get_file_names_in_directory` is modelled by the error
  value `ProcExit.exit` of an `Except`: the single constructor stands for
  termination of the whole process, not a recoverable in-process error.
-/

namespace Wb

/-- A filesystem path, given by its list of components.  The Python string
path `"a/b"` corresponds to `["a", "b"]`. -/
abbrev FPath := List String

/-- Kind of a filesystem node: regular file, symbolic link, or directory. -/
inductive NodeKind
  | file
  | link
  | dir
deriving DecidableEq

/-- A filesystem state: the list of existing paths with their node kinds.
A real filesystem additionally satisfies `WfFs` below. -/
abbrev FileSystem := List (FPath × NodeKind)

/-- Kind of the node at path `p`, if it exists (the `os.path.exists`,
`os.path.isfile`, `os.path.islink` queries of the source). -/
def kindOf : FileSystem → FPath → Option NodeKind
  | [], _ => none
  | e :: rest, p => if e.1 = p then some e.2 else kindOf rest p

/-- Model of `os.unlink p`: the entry at path `p` is removed. -/
def unlink : FileSystem → FPath → FileSystem
  | [], _ => []
  | e :: rest, p => if e.1 = p then unlink rest p else e :: unlink rest p

/-- Model of `shutil.rmtree p`: every entry at or below path `p` is removed. -/
def rmtree : FileSystem → FPath → FileSystem
  | [], _ => []
  | e :: rest, p => if p <+: e.1 then rmtree rest p else e :: rmtree rest p

/-- Function `remove_file_dir` of `src/utils/log.py`: returns `False` when the path
does not exist, unlinks a file or symlink, removes a directory tree. -/
def remove_file_dir (fs : FileSystem) (p : FPath) : Bool × FileSystem :=
  match kindOf fs p with
  | none => (false, fs)
  | some NodeKind.file => (true, unlink fs p)
  | some NodeKind.link => (true, unlink fs p)
  | some NodeKind.dir => (true, rmtree fs p)

/-- The nonempty strict ancestors of a path (every prefix other than the
empty path and the path itself). -/
def strictAncestors (p : FPath) : List FPath :=
  p.inits.filter (fun q => decide (q ≠ [] ∧ q ≠ p))

/-- Whether a non-directory node sits at path `q`. -/
def existsNonDir (fs : FileSystem) (q : FPath) : Bool :=
  match kindOf fs q with
  | some NodeKind.dir => false
  | some _ => true
  | none => false

/-- Model of `os.makedirs p` (with the default `exist_ok=False`): fails if
the leaf already exists or some ancestor exists as a non-directory, and
otherwise creates the leaf directory together with every missing ancestor. -/
def makedirs (fs : FileSystem) (p : FPath) : Except Unit FileSystem :=
  if (kindOf fs p).isSome then Except.error ()
  else if (strictAncestors p).any (fun q => existsNonDir fs q) then Except.error ()
  else Except.ok
    ((((strictAncestors p).filter (fun q => (kindOf fs q).isNone)).map
        (fun q => (q, NodeKind.dir))) ++ (p, NodeKind.dir) :: fs)

/-- The run configuration: a mapping from string keys to string values
(the part of the mapping the façade itself inspects). -/
abbrev Config := List (String × String)

/-- Python dict lookup `config[k]` on the configuration mapping. -/
def lookupKey : Config → String → Option String
  | [], _ => none
  | e :: rest, k => if e.1 = k then some e.2 else lookupKey rest k

/-- The log directory `<base>/log/<name>` as a component path
(`get_log_dir` at the path level). -/
def logDirPath (base : FPath) (name : String) : FPath :=
  base ++ [("log"), name]

/-- The dataset directory `log_dir + "/dataset"` as a component path. -/
def datasetDirPath (base : FPath) (name : String) : FPath :=
  logDirPath base name ++ [("dataset")]

/-- The model directory `log_dir + "/model"` as a component path. -/
def modelDirPath (base : FPath) (name : String) : FPath :=
  logDirPath base name ++ [("model")]

/-- Method `WandbLogger._initialize_log_dir`: remove the dataset directory, the
model directory and the log directory, then recreate the log, model and
dataset directories, in the order of the source. -/
def init_log_dir (fs : FileSystem) (d : FPath) : Except Unit FileSystem :=
  let fs1 := (remove_file_dir fs (d ++ [("dataset")])).2
  let fs2 := (remove_file_dir fs1 (d ++ [("model")])).2
  let fs3 := (remove_file_dir fs2 d).2
  match makedirs fs3 d with
  | Except.error e => Except.error e
  | Except.ok fs4 =>
    match makedirs fs4 (d ++ [("model")]) with
    | Except.error e => Except.error e
    | Except.ok fs5 =>
      match makedirs fs5 (d ++ [("dataset")]) with
      | Except.error e => Except.error e
      | Except.ok fs6 => Except.ok fs6

/-- The façade instance: after construction it only holds the project
name (`self.project_name`); every directory is recomputed from it. -/
structure WandbLogger where
  project_name : String
deriving DecidableEq

/-- Failures of `WandbLogger.__init__`: the `KeyError` on a missing
`"logger_name"` key (the `ConfigurationError` of the specification), or an
`OSError` escaping the directory manipulation. -/
inductive InitError
  | keyError
  | osError
deriving DecidableEq

/-- Constructor `WandbLogger.__init__`: reads `config["logger_name"]` (raising on a
missing key), resets the local directories, and opens the remote run
session (the session handle is the project name itself; opening it has no
effect the model observes). -/
def WandbLogger.init (base : FPath) (config : Config) (fs : FileSystem) :
    Except InitError (WandbLogger × FileSystem) :=
  match lookupKey config ("logger_name") with
  | none => Except.error InitError.keyError
  | some name =>
    match init_log_dir fs (logDirPath base name) with
    | Except.error _ => Except.error InitError.osError
    | Except.ok fs' => Except.ok ({ project_name := name }, fs')

/-- Function `get_log_dir` of the source at the string level:
`os.path.join(base, "log", log_name)`. -/
def get_log_dir (base : String) (log_name : String) : String :=
  base ++ "/log/" ++ log_name

/-- The `log_dir` property of `WandbLogger` (string level). -/
def WandbLogger.log_dir (self : WandbLogger) (base : String) : String :=
  get_log_dir base self.project_name

/-- The `log_dataset_dir` property: `self.log_dir + "/dataset"`. -/
def WandbLogger.log_dataset_dir (self : WandbLogger) (base : String) : String :=
  self.log_dir base ++ "/dataset"

/-- The `log_model_dir` property: `self.log_dir + "/model"`. -/
def WandbLogger.log_model_dir (self : WandbLogger) (base : String) : String :=
  self.log_dir base ++ "/model"

/-- A date and time, as read from the wall clock by `datetime.now()`. -/
structure DateTime where
  day : Nat
  month : Nat
  year : Nat
  hour : Nat
  minute : Nat
  second : Nat
deriving DecidableEq

/-- Zero-padded two-digit rendering used by the `%d`, `%m`, `%H`, `%M`,
`%S` directives of `strftime`. -/
def pad2 (n : Nat) : String :=
  if n < 10 then ("0") ++ toString n else toString n

/-- Function `get_formatted_date_time` of the source:
`now.strftime("%d-%m-%Y-%H-%M-%S")`, e.g. `05-05-2021-22-14-31`. -/
def get_formatted_date_time (now : DateTime) : String :=
  pad2 now.day ++ "-" ++ pad2 now.month ++ "-" ++ toString now.year ++ "-" ++
    pad2 now.hour ++ "-" ++ pad2 now.minute ++ "-" ++ pad2 now.second

/-- A value sent to the tracking service (the Python objects the façade
passes through without inspecting them). -/
inductive Value
  | int : Int → Value
  | rat : Rat → Value
  | str : String → Value
deriving DecidableEq

/-- A record sent by `wandb.log`: a Python dict with string keys. -/
abbrev Record := List (String × Value)

/-- Insertion into a Python dict: an existing key is overwritten in place,
a new key is appended.  The dict literal `{"a": x, "b": y}` is
`pyDictInsert (pyDictInsert [] "a" x) "b" y`. -/
def pyDictInsert : Record → String → Value → Record
  | [], k, v => [(k, v)]
  | e :: rest, k, v => if e.1 = k then (k, v) :: rest else e :: pyDictInsert rest k v

/-- A model artifact: `wandb.Artifact(name=..., type=...)` together with
the basenames of the files added to it by `add_file`. -/
structure Artifact where
  name : String
  type : String
  files : List String
deriving DecidableEq

/-- A remote artifact version as seen by `api.artifact_versions`: the
model only needs its alias list. -/
structure Version where
  aliases : List String
deriving DecidableEq

/-- The observable state of the remote tracking service for the current
run: the metric records received, the artifact uploads received (artifact
plus alias list, in order), and the artifact versions it stores. -/
structure RemoteState where
  records : List Record
  uploads : List (Artifact × List String)
  versions : List Version
deriving DecidableEq

/-- Call `self._run.log(record)`: the record is sent immediately as one entry
of the remote record stream; there is no local buffering. -/
def wandb_log (rs : RemoteState) (record : Record) : RemoteState :=
  { rs with records := rs.records ++ [record] }

/-- Call `self._run.log_artifact(artifact, aliases=aliases)`: the upload is
sent, and the server stores one new version carrying those aliases. -/
def log_artifact (rs : RemoteState) (a : Artifact) (aliases : List String) : RemoteState :=
  { rs with uploads := rs.uploads ++ [(a, aliases)],
            versions := rs.versions ++ [{ aliases := aliases }] }

/-- Method `WandbLogger.log_info`: `self._run.log({"Iteration": epoch, key: value})`. -/
def log_info (rs : RemoteState) (epoch : Value) (key : String) (value : Value) :
    RemoteState :=
  wandb_log rs (pyDictInsert (pyDictInsert [] ("Iteration") epoch) key value)

/-- Termination of the whole process (the `exit()` call of the source).
The sole constructor is not a recoverable error value: reaching it means
the process is gone. -/
inductive ProcExit
  | exit
deriving DecidableEq

/-- The name `f` such that `p = d ++ [f]`, when `p` is a direct child of
directory `d`. -/
def childNameOf (d p : FPath) : Option String :=
  match p.getLast? with
  | some f => if p = d ++ [f] then some f else none
  | none => none

/-- The file names directly inside directory `d`: the names of the
non-directory children, as produced in the `filenames` component of the
first `os.walk` triple. -/
def childFileNames (d : FPath) : FileSystem → List String
  | [] => []
  | e :: rest =>
    match childNameOf d e.1 with
    | some f =>
      if e.2 = NodeKind.dir then childFileNames d rest
      else f :: childFileNames d rest
    | none => childFileNames d rest

/-- Function `get_file_names_in_directory` of the source: `next(os.walk(directory))`
yields the triple for an existing directory; on a missing or unreadable
path the `StopIteration` is caught, a message is printed, and `exit()`
terminates the process. -/
def get_file_names_in_directory (fs : FileSystem) (directory : FPath) :
    Except ProcExit (List String) :=
  if kindOf fs directory = some NodeKind.dir then
    Except.ok (childFileNames directory fs)
  else
    Except.error ProcExit.exit

/-- The loop body of `WandbLogger.delete_useless_model`: every remote
version whose alias list is empty is deleted; the versions that remain. -/
def delete_useless_model : List Version → List Version
  | [] => []
  | v :: rest =>
    if v.aliases.length = 0 then delete_useless_model rest
    else v :: delete_useless_model rest

/-- The versions a `delete_useless_model` run deletes. -/
def deletedVersions : List Version → List Version
  | [] => []
  | v :: rest =>
    if v.aliases.length = 0 then v :: deletedVersions rest
    else deletedVersions rest

/-- Method `WandbLogger.log_model`: enumerate the files of the local model
directory (terminating the process when that fails), package them into a
fresh artifact, upload it with alias `"latest"` plus, when `finished`, the
`"finished-<timestamp>"` alias, and when `finished` additionally run
`delete_useless_model` against the server. -/
def log_model (base : FPath) (self : WandbLogger) (fs : FileSystem) (now : DateTime)
    (finished : Bool) (rs : RemoteState) : Except ProcExit RemoteState :=
  match get_file_names_in_directory fs (modelDirPath base self.project_name) with
  | Except.error e => Except.error e
  | Except.ok file_names =>
    let model_artifact : Artifact := { name := ("model"), type := ("model"), files := file_names }
    let aliases :=
      if finished then [("latest"), ("finished-") ++ get_formatted_date_time now]
      else [("latest")]
    let rs1 := log_artifact rs model_artifact aliases
    let rs2 :=
      if finished then { rs1 with versions := delete_useless_model rs1.versions }
      else rs1
    Except.ok rs2

/-- Failures of `WandbLogger.load_model`: the `AttributeError` from the
`eval` of an unresolvable reference, or process termination from the
directory enumeration. -/
inductive LoadError
  | attributeError
  | processExit
deriving DecidableEq

/-- Python attribute lookup on the façade instance. -/
def lookupAttr : List (String × Artifact) → String → Option Artifact
  | [], _ => none
  | a :: rest, k => if a.1 = k then some a.2 else lookupAttr rest k

/-- The `eval(model_api)` of `load_model`, restricted to the reference
shape the method constructs: an expression `self.<attr>` resolves to the
artifact-handle attribute `<attr>` of the instance, and fails with
`AttributeError` when no such attribute exists.  `attrs` is the attribute
table of the instance. -/
def evalSelfAttr (attrs : List (String × Artifact)) (e : String) : Option Artifact :=
  if e.take 5 = ("self.") then lookupAttr attrs (e.drop 5) else none

/-- Call `artifact.download(root=...)`: the artifact's files appear inside the
root directory. -/
def downloadArtifact (fs : FileSystem) (root : FPath) (a : Artifact) : FileSystem :=
  (a.files.map (fun f => (root ++ [f], NodeKind.file))) ++ fs

/-- Method `WandbLogger.load_model`: rewrite the caller string into
`"self._" + model_api[11:]`, `eval` it against the instance, download the
resolved artifact into the local model directory, enumerate and print that
directory, and return the model directory path. -/
def load_model (attrs : List (String × Artifact)) (base : FPath) (self : WandbLogger)
    (fs : FileSystem) (model_api : String) : Except LoadError (FileSystem × FPath) :=
  let expr := ("self._") ++ model_api.drop 11
  match evalSelfAttr attrs expr with
  | none => Except.error LoadError.attributeError
  | some artifact =>
    let fs1 := downloadArtifact fs (modelDirPath base self.project_name) artifact
    match get_file_names_in_directory fs1 (modelDirPath base self.project_name) with
    | Except.error _ => Except.error LoadError.processExit
    | Except.ok _ => Except.ok (fs1, modelDirPath base self.project_name)

/-- Well-formedness of a filesystem state: a path carries at most one
kind, and every nonempty strict ancestor of an existing path exists and is
a directory.  Every real filesystem satisfies this. -/
def WfFs (fs : FileSystem) : Prop :=
  (∀ e ∈ fs, ∀ e' ∈ fs, e.1 = e'.1 → e.2 = e'.2) ∧
  (∀ e ∈ fs, ∀ q ∈ e.1.inits, q ≠ [] → q ≠ e.1 → (q, NodeKind.dir) ∈ fs)

/-- The directory at `p` exists and is empty: nothing lives strictly
below it. -/
def isEmptyDir (fs : FileSystem) (p : FPath) : Prop :=
  kindOf fs p = some NodeKind.dir ∧ ∀ e ∈ fs, p <+: e.1 → e.1 = p

deriving instance DecidableEq for Except

instance (fs : FileSystem) : Decidable (WfFs fs) := by
  unfold WfFs
  infer_instance

instance (fs : FileSystem) (p : FPath) : Decidable (isEmptyDir fs p) := by
  unfold isEmptyDir
  infer_instance

/-- A successful `kindOf` query is witnessed by an entry of the filesystem. -/
theorem kindOf_mem {p : FPath} {k : NodeKind} :
    ∀ {fs : FileSystem}, kindOf fs p = some k → (p, k) ∈ fs := by
  intro fs
  induction fs with
  | nil => intro h; simp [kindOf] at h
  | cons e rest ih =>
    intro h
    by_cases he : e.1 = p
    · rw [kindOf, if_pos he] at h
      obtain rfl := Option.some.inj h
      obtain ⟨q, k'⟩ := e
      simp_all
    · rw [kindOf, if_neg he] at h
      exact List.mem_cons_of_mem _ (ih h)

/-- An entry of the filesystem makes the `kindOf` query succeed. -/
theorem kindOf_isSome_of_mem {p : FPath} {k : NodeKind} :
    ∀ {fs : FileSystem}, (p, k) ∈ fs → (kindOf fs p).isSome := by
  intro fs
  induction fs with
  | nil => intro h; simp at h
  | cons e rest ih =>
    intro h
    by_cases he : e.1 = p
    · rw [kindOf, if_pos he]; rfl
    · rw [kindOf, if_neg he]
      rcases List.mem_cons.mp h with rfl | hm
      · exact absurd rfl he
      · exact ih hm

/-- A path mentioned by no entry has no kind. -/
theorem kindOf_eq_none {fs : FileSystem} {p : FPath}
    (h : ∀ k, (p, k) ∉ fs) : kindOf fs p = none := by
  cases hk : kindOf fs p with
  | none => rfl
  | some k => exact absurd (kindOf_mem hk) (h k)

/-- On a filesystem whose paths carry unique kinds, membership determines
the `kindOf` query. -/
theorem kindOf_of_mem_unique {fs : FileSystem} {p : FPath} {k : NodeKind}
    (hu : ∀ e ∈ fs, ∀ e' ∈ fs, e.1 = e'.1 → e.2 = e'.2)
    (hm : (p, k) ∈ fs) : kindOf fs p = some k := by
  cases hk : kindOf fs p with
  | none =>
    have := kindOf_isSome_of_mem hm
    rw [hk] at this
    simp at this
  | some k' =>
    have hm' := kindOf_mem hk
    have := hu (p, k') hm' (p, k) hm rfl
    simp only at this
    rw [this]

/-- Membership in the result of `unlink`. -/
theorem mem_unlink {e : FPath × NodeKind} {p : FPath} :
    ∀ {fs : FileSystem}, e ∈ unlink fs p ↔ e ∈ fs ∧ e.1 ≠ p := by
  intro fs
  induction fs with
  | nil => simp [unlink]
  | cons f rest ih =>
    by_cases hf : f.1 = p
    · rw [unlink, if_pos hf, ih]
      constructor
      · rintro ⟨hm, hne⟩
        exact ⟨List.mem_cons_of_mem _ hm, hne⟩
      · rintro ⟨hm, hne⟩
        rcases List.mem_cons.mp hm with rfl | hm'
        · exact absurd hf hne
        · exact ⟨hm', hne⟩
    · rw [unlink, if_neg hf]
      simp only [List.mem_cons, ih]
      constructor
      · rintro (rfl | ⟨hm, hne⟩)
        · exact ⟨Or.inl rfl, hf⟩
        · exact ⟨Or.inr hm, hne⟩
      · rintro ⟨rfl | hm, hne⟩
        · exact Or.inl rfl
        · exact Or.inr ⟨hm, hne⟩

/-- Membership in the result of `rmtree`. -/
theorem mem_rmtree {e : FPath × NodeKind} {p : FPath} :
    ∀ {fs : FileSystem}, e ∈ rmtree fs p ↔ e ∈ fs ∧ ¬ p <+: e.1 := by
  intro fs
  induction fs with
  | nil => simp [rmtree]
  | cons f rest ih =>
    by_cases hf : p <+: f.1
    · rw [rmtree, if_pos hf, ih]
      constructor
      · rintro ⟨hm, hne⟩
        exact ⟨List.mem_cons_of_mem _ hm, hne⟩
      · rintro ⟨hm, hne⟩
        rcases List.mem_cons.mp hm with rfl | hm'
        · exact absurd hf hne
        · exact ⟨hm', hne⟩
    · rw [rmtree, if_neg hf]
      simp only [List.mem_cons, ih]
      constructor
      · rintro (rfl | ⟨hm, hne⟩)
        · exact ⟨Or.inl rfl, hf⟩
        · exact ⟨Or.inr hm, hne⟩
      · rintro ⟨rfl | hm, hne⟩
        · exact Or.inl rfl
        · exact Or.inr ⟨hm, hne⟩

/-- Function `remove_file_dir` only ever discards entries. -/
theorem mem_remove_file_dir {fs : FileSystem} {p : FPath} {e : FPath × NodeKind}
    (h : e ∈ (remove_file_dir fs p).2) : e ∈ fs := by
  rw [remove_file_dir] at h
  cases hk : kindOf fs p with
  | none => rw [hk] at h; exact h
  | some k =>
    cases k <;> rw [hk] at h
    · exact (mem_unlink.mp h).1
    · exact (mem_unlink.mp h).1
    · exact (mem_rmtree.mp h).1

/-- After `remove_file_dir fs p` on a well-formed filesystem, no entry sits
at or below `p`. -/
theorem remove_file_dir_not_under {fs : FileSystem} {p : FPath}
    (hwf : WfFs fs) (hp : p ≠ []) :
    ∀ e ∈ (remove_file_dir fs p).2, ¬ p <+: e.1 := by
  intro e hm hpfx
  cases hk : kindOf fs p with
  | none =>
    simp only [remove_file_dir, hk] at hm
    by_cases hep : e.1 = p
    · obtain ⟨q, k⟩ := e
      simp only at hep
      subst hep
      have := kindOf_isSome_of_mem hm
      rw [hk] at this
      simp at this
    · have hanc := hwf.2 e hm p ((List.mem_inits _ _).mpr hpfx) hp
        (fun h => hep h.symm)
      have := kindOf_isSome_of_mem hanc
      rw [hk] at this
      simp at this
  | some k =>
    cases k
    case file =>
      simp only [remove_file_dir, hk] at hm
      obtain ⟨hmf, hne⟩ := mem_unlink.mp hm
      have hanc := hwf.2 e hmf p ((List.mem_inits _ _).mpr hpfx) hp
        (fun h => hne h.symm)
      have := hwf.1 (p, NodeKind.dir) hanc (p, NodeKind.file) (kindOf_mem hk) rfl
      exact NodeKind.noConfusion this
    case link =>
      simp only [remove_file_dir, hk] at hm
      obtain ⟨hmf, hne⟩ := mem_unlink.mp hm
      have hanc := hwf.2 e hmf p ((List.mem_inits _ _).mpr hpfx) hp
        (fun h => hne h.symm)
      have := hwf.1 (p, NodeKind.dir) hanc (p, NodeKind.link) (kindOf_mem hk) rfl
      exact NodeKind.noConfusion this
    case dir =>
      simp only [remove_file_dir, hk] at hm
      exact (mem_rmtree.mp hm).2 hpfx

/-- Function `remove_file_dir` preserves well-formedness. -/
theorem remove_file_dir_wf {fs : FileSystem} {p : FPath} (hwf : WfFs fs) :
    WfFs (remove_file_dir fs p).2 := by
  constructor
  · intro e he e' he' h1
    exact hwf.1 e (mem_remove_file_dir he) e' (mem_remove_file_dir he') h1
  · intro e he q hq hq1 hq2
    have hqdir : (q, NodeKind.dir) ∈ fs :=
      hwf.2 e (mem_remove_file_dir he) q hq hq1 hq2
    cases hk : kindOf fs p with
    | none =>
      simp only [remove_file_dir, hk] at he ⊢
      exact hqdir
    | some k =>
      cases k
      case file =>
        simp only [remove_file_dir, hk] at he ⊢
        refine mem_unlink.mpr ⟨hqdir, fun hqp => ?_⟩
        subst hqp
        have := hwf.1 (q, NodeKind.dir) hqdir (q, NodeKind.file) (kindOf_mem hk) rfl
        exact NodeKind.noConfusion this
      case link =>
        simp only [remove_file_dir, hk] at he ⊢
        refine mem_unlink.mpr ⟨hqdir, fun hqp => ?_⟩
        subst hqp
        have := hwf.1 (q, NodeKind.dir) hqdir (q, NodeKind.link) (kindOf_mem hk) rfl
        exact NodeKind.noConfusion this
      case dir =>
        simp only [remove_file_dir, hk] at he ⊢
        obtain ⟨hmf, hnp⟩ := mem_rmtree.mp he
        refine mem_rmtree.mpr ⟨hqdir, fun hpq => ?_⟩
        exact hnp (hpq.trans ((List.mem_inits _ _).mp hq))

/-- An entry outside the removed subtree survives `remove_file_dir`. -/
theorem mem_remove_file_dir_of {fs : FileSystem} {p : FPath} {e : FPath × NodeKind}
    (hm : e ∈ fs) (hout : ¬ p <+: e.1) : e ∈ (remove_file_dir fs p).2 := by
  cases hk : kindOf fs p with
  | none => simpa only [remove_file_dir, hk] using hm
  | some k =>
    cases k
    case file =>
      simp only [remove_file_dir, hk]
      exact mem_unlink.mpr ⟨hm, fun h => hout (by rw [h])⟩
    case link =>
      simp only [remove_file_dir, hk]
      exact mem_unlink.mpr ⟨hm, fun h => hout (by rw [h])⟩
    case dir =>
      simp only [remove_file_dir, hk]
      exact mem_rmtree.mpr ⟨hm, hout⟩

/-- Membership in `strictAncestors`. -/
theorem mem_strictAncestors {q p : FPath} :
    q ∈ strictAncestors p ↔ q <+: p ∧ q ≠ [] ∧ q ≠ p := by
  simp [strictAncestors, List.mem_filter, List.mem_inits, and_assoc]

/-- Characterization of `existsNonDir fs q = false`. -/
theorem existsNonDir_eq_false_iff {fs : FileSystem} {q : FPath} :
    existsNonDir fs q = false ↔ ∀ k, kindOf fs q = some k → k = NodeKind.dir := by
  cases hk : kindOf fs q with
  | none => simp [existsNonDir, hk]
  | some k => cases k <;> simp [existsNonDir, hk]

/-- Predicate `existsNonDir` is false when every node at `q` is a directory. -/
theorem existsNonDir_eq_false_of {fs : FileSystem} {q : FPath}
    (h : ∀ k, (q, k) ∈ fs → k = NodeKind.dir) : existsNonDir fs q = false := by
  refine existsNonDir_eq_false_iff.mpr fun k hk => h k (kindOf_mem hk)

/-- Success of `makedirs` determines both the precondition and the result. -/
theorem makedirs_eq_ok {fs fs' : FileSystem} {p : FPath}
    (h : makedirs fs p = Except.ok fs') :
    kindOf fs p = none ∧
      fs' = (((strictAncestors p).filter (fun q => (kindOf fs q).isNone)).map
          (fun q => (q, NodeKind.dir))) ++ (p, NodeKind.dir) :: fs := by
  rw [makedirs] at h
  by_cases h1 : (kindOf fs p).isSome
  · rw [if_pos h1] at h
    exact absurd h (by simp)
  · rw [if_neg h1] at h
    by_cases h2 : (strictAncestors p).any (fun q => existsNonDir fs q) = true
    · rw [if_pos h2] at h
      exact absurd h (by simp)
    · rw [if_neg h2] at h
      exact ⟨Option.not_isSome_iff_eq_none.mp h1, (Except.ok.inj h).symm⟩

/-- Function `makedirs` succeeds when the leaf is absent and every strict ancestor
is a directory or absent. -/
theorem makedirs_ok {fs : FileSystem} {p : FPath}
    (h1 : kindOf fs p = none)
    (h2 : ∀ q ∈ strictAncestors p, existsNonDir fs q = false) :
    ∃ fs', makedirs fs p = Except.ok fs' := by
  rw [makedirs, if_neg (by simp [h1]), if_neg ?hany]
  case hany =>
    simp only [List.any_eq_true, not_exists]
    rintro q ⟨hq, htrue⟩
    rw [h2 q hq] at htrue
    exact absurd htrue (by decide)
  exact ⟨_, rfl⟩

/-- Every entry of a successful `makedirs` result is an old entry or a
directory on the created branch. -/
theorem makedirs_mem {fs fs' : FileSystem} {p : FPath}
    (h : makedirs fs p = Except.ok fs') :
    ∀ e ∈ fs', e ∈ fs ∨ (e.2 = NodeKind.dir ∧ e.1 <+: p) := by
  obtain ⟨-, rfl⟩ := makedirs_eq_ok h
  intro e he
  rcases List.mem_append.mp he with hl | hr
  · obtain ⟨q, hq, rfl⟩ := List.mem_map.mp hl
    exact Or.inr ⟨rfl, (mem_strictAncestors.mp (List.mem_filter.mp hq).1).1⟩
  · rcases List.mem_cons.mp hr with rfl | hm
    · exact Or.inr ⟨rfl, List.prefix_rfl⟩
    · exact Or.inl hm

/-- Function `makedirs` never discards entries. -/
theorem makedirs_mono {fs fs' : FileSystem} {p : FPath}
    (h : makedirs fs p = Except.ok fs') {e : FPath × NodeKind} (hm : e ∈ fs) :
    e ∈ fs' := by
  obtain ⟨-, rfl⟩ := makedirs_eq_ok h
  exact List.mem_append_right _ (List.mem_cons_of_mem _ hm)

/-- Prepending entries at other paths does not change a `kindOf` query. -/
theorem kindOf_append_of_ne {p : FPath} :
    ∀ {l fs : FileSystem}, (∀ e ∈ l, e.1 ≠ p) → kindOf (l ++ fs) p = kindOf fs p := by
  intro l
  induction l with
  | nil => intro fs _; rfl
  | cons e rest ih =>
    intro fs hl
    rw [List.cons_append, kindOf, if_neg (hl e (List.mem_cons_self e rest))]
    exact ih fun e' he' => hl e' (List.mem_cons_of_mem e he')

/-- A successful `makedirs` leaves a directory at the requested path. -/
theorem makedirs_kindOf_self {fs fs' : FileSystem} {p : FPath}
    (h : makedirs fs p = Except.ok fs') : kindOf fs' p = some NodeKind.dir := by
  obtain ⟨-, rfl⟩ := makedirs_eq_ok h
  rw [kindOf_append_of_ne ?hne, kindOf, if_pos rfl]
  case hne =>
    intro e he
    obtain ⟨q, hq, rfl⟩ := List.mem_map.mp he
    exact (mem_strictAncestors.mp (List.mem_filter.mp hq).1).2.2

/-- A successful `makedirs` does not change the kind of an existing path. -/
theorem makedirs_kindOf_pres {fs fs' : FileSystem} {p q : FPath}
    (h : makedirs fs p = Except.ok fs') (hq : (kindOf fs q).isSome) :
    kindOf fs' q = kindOf fs q := by
  obtain ⟨hnone, rfl⟩ := makedirs_eq_ok h
  rw [show (((strictAncestors p).filter (fun r => (kindOf fs r).isNone)).map
        (fun r => (r, NodeKind.dir))) ++ (p, NodeKind.dir) :: fs =
      ((((strictAncestors p).filter (fun r => (kindOf fs r).isNone)).map
        (fun r => (r, NodeKind.dir))) ++ [(p, NodeKind.dir)]) ++ fs from by simp]
  apply kindOf_append_of_ne
  intro e he
  rcases List.mem_append.mp he with hl | hr
  · obtain ⟨r, hr, rfl⟩ := List.mem_map.mp hl
    intro hrq
    subst hrq
    have := (List.mem_filter.mp hr).2
    rw [Option.isNone_iff_eq_none] at this
    rw [this] at hq
    exact absurd hq (by decide)
  · rcases List.mem_cons.mp hr with rfl | hm
    · intro hpq
      simp only at hpq
      subst hpq
      rw [hnone] at hq
      exact absurd hq (by decide)
    · simp at hm

/-- A prefix of `p ++ [x]` is a prefix of `p` or all of `p ++ [x]`. -/
theorem prefix_snoc_iff {q p : FPath} {x : String} :
    q <+: p ++ [x] ↔ q <+: p ∨ q = p ++ [x] := by
  induction p generalizing q with
  | nil =>
    simp only [List.nil_append]
    constructor
    · intro h
      rcases q with _ | ⟨a, as⟩
      · exact Or.inl List.nil_prefix
      · obtain ⟨ha, has⟩ := List.cons_prefix_cons.mp h
        subst ha
        rw [List.prefix_nil] at has
        subst has
        exact Or.inr rfl
    · rintro (h | rfl)
      · rw [List.prefix_nil] at h
        subst h
        exact List.nil_prefix
      · exact List.prefix_rfl
  | cons b bs ih =>
    constructor
    · intro h
      rcases q with _ | ⟨a, as⟩
      · exact Or.inl List.nil_prefix
      · rw [List.cons_append] at h
        obtain ⟨ha, has⟩ := List.cons_prefix_cons.mp h
        subst ha
        rcases ih.mp has with h' | rfl
        · exact Or.inl (List.cons_prefix_cons.mpr ⟨rfl, h'⟩)
        · exact Or.inr rfl
    · rintro (h | rfl)
      · exact h.trans (List.prefix_append _ _)
      · exact List.prefix_rfl

/-- A strictly longer list is no prefix. -/
theorem not_snoc_prefix_self {p : FPath} {a : String} : ¬ (p ++ [a] <+: p) := by
  intro h
  have := h.length_le
  simp at this

/-- Appending one component changes the path. -/
theorem self_ne_snoc {p : FPath} {a : String} : p ≠ p ++ [a] := by
  intro h
  have := congrArg List.length h
  simp at this

/-- Two one-component extensions of the same path only interleave as
prefixes when the components agree. -/
theorem snoc_inj_of_prefix {p : FPath} {a b : String}
    (h : p ++ [a] <+: p ++ [b]) : a = b := by
  rcases prefix_snoc_iff.mp h with h' | h'
  · exact absurd h' not_snoc_prefix_self
  · simpa using List.append_cancel_left h'

/-- The strict ancestors of `p ++ [x]` are the nonempty prefixes of `p`. -/
theorem mem_strictAncestors_snoc {q p : FPath} {x : String} :
    q ∈ strictAncestors (p ++ [x]) ↔ q <+: p ∧ q ≠ [] := by
  rw [mem_strictAncestors]
  constructor
  · rintro ⟨hpfx, hne, hnep⟩
    rcases prefix_snoc_iff.mp hpfx with h | rfl
    · exact ⟨h, hne⟩
    · exact absurd rfl hnep
  · rintro ⟨hpfx, hne⟩
    refine ⟨hpfx.trans (List.prefix_append _ _), hne, fun h => ?_⟩
    subst h
    exact not_snoc_prefix_self hpfx

/-- Unfolding `init_log_dir` along three successful `makedirs` calls. -/
theorem init_log_dir_eq {fs : FileSystem} {d : FPath} {fs4 fs5 fs6 : FileSystem}
    (h1 : makedirs (remove_file_dir (remove_file_dir (remove_file_dir fs
        (d ++ [("dataset")])).2 (d ++ [("model")])).2 d).2 d = Except.ok fs4)
    (h2 : makedirs fs4 (d ++ [("model")]) = Except.ok fs5)
    (h3 : makedirs fs5 (d ++ [("dataset")]) = Except.ok fs6) :
    init_log_dir fs d = Except.ok fs6 := by
  simp only [init_log_dir, h1, h2, h3]

/-- Core of the directory reset: starting from a state with nothing at or
below `d`, and only directories on the strict ancestors of `d`, the three
`makedirs` calls succeed and leave empty `dataset` and `model`
directories. -/
theorem makedirs_three_spec {fs3 : FileSystem} {d : FPath}
    (hno3 : ∀ e ∈ fs3, ¬ d <+: e.1)
    (hgood3 : ∀ q, q <+: d → q ≠ [] → q ≠ d → ∀ k, (q, k) ∈ fs3 → k = NodeKind.dir) :
    ∃ fs4 fs5 fs6,
      makedirs fs3 d = Except.ok fs4 ∧
      makedirs fs4 (d ++ [("model")]) = Except.ok fs5 ∧
      makedirs fs5 (d ++ [("dataset")]) = Except.ok fs6 ∧
      isEmptyDir fs6 (d ++ [("dataset")]) ∧ isEmptyDir fs6 (d ++ [("model")]) := by
  have hleaf1 : kindOf fs3 d = none :=
    kindOf_eq_none fun k hk => hno3 (d, k) hk List.prefix_rfl
  have hanc1 : ∀ q ∈ strictAncestors d, existsNonDir fs3 q = false := by
    intro q hq
    obtain ⟨hq1, hq2, hq3⟩ := mem_strictAncestors.mp hq
    exact existsNonDir_eq_false_of fun k hk => hgood3 q hq1 hq2 hq3 k hk
  obtain ⟨fs4, hmk1⟩ := makedirs_ok hleaf1 hanc1
  have hgood4 : ∀ q, q <+: d → q ≠ [] → ∀ k, (q, k) ∈ fs4 → k = NodeKind.dir := by
    intro q hq hq1 k hk
    rcases makedirs_mem hmk1 (q, k) hk with h3 | ⟨hdir, -⟩
    · by_cases hqd : q = d
      · subst hqd
        exact absurd List.prefix_rfl (hno3 (q, k) h3)
      · exact hgood3 q hq hq1 hqd k h3
    · exact hdir
  have hunder4 : ∀ e ∈ fs4, d <+: e.1 → e.1 = d := by
    intro e he hpfx
    rcases makedirs_mem hmk1 e he with h3 | ⟨-, hpfx'⟩
    · exact absurd hpfx (hno3 e h3)
    · exact hpfx'.eq_of_length (Nat.le_antisymm hpfx'.length_le hpfx.length_le)
  have hleaf2 : kindOf fs4 (d ++ [("model")]) = none := by
    apply kindOf_eq_none
    intro k hk
    have h := hunder4 (d ++ [("model")], k) hk (List.prefix_append d _)
    simp only at h
    exact self_ne_snoc h.symm
  have hanc2 : ∀ q ∈ strictAncestors (d ++ [("model")]), existsNonDir fs4 q = false := by
    intro q hq
    obtain ⟨hq1, hq2⟩ := mem_strictAncestors_snoc.mp hq
    exact existsNonDir_eq_false_of fun k hk => hgood4 q hq1 hq2 k hk
  obtain ⟨fs5, hmk2⟩ := makedirs_ok hleaf2 hanc2
  have hgood5 : ∀ q, q <+: d → q ≠ [] → ∀ k, (q, k) ∈ fs5 → k = NodeKind.dir := by
    intro q hq hq1 k hk
    rcases makedirs_mem hmk2 (q, k) hk with h4 | ⟨hdir, -⟩
    · exact hgood4 q hq hq1 k h4
    · exact hdir
  have hleaf3 : kindOf fs5 (d ++ [("dataset")]) = none := by
    apply kindOf_eq_none
    intro k hk
    rcases makedirs_mem hmk2 (d ++ [("dataset")], k) hk with h4 | ⟨-, hpfx⟩
    · have h := hunder4 (d ++ [("dataset")], k) h4 (List.prefix_append d _)
      simp only at h
      exact self_ne_snoc h.symm
    · have h : ("dataset" : String) = ("model") := snoc_inj_of_prefix hpfx
      exact absurd h (by decide)
  have hanc3 : ∀ q ∈ strictAncestors (d ++ [("dataset")]),
      existsNonDir fs5 q = false := by
    intro q hq
    obtain ⟨hq1, hq2⟩ := mem_strictAncestors_snoc.mp hq
    exact existsNonDir_eq_false_of fun k hk => hgood5 q hq1 hq2 k hk
  obtain ⟨fs6, hmk3⟩ := makedirs_ok hleaf3 hanc3
  refine ⟨fs4, fs5, fs6, hmk1, hmk2, hmk3, ⟨makedirs_kindOf_self hmk3, ?_⟩, ⟨?_, ?_⟩⟩
  · intro e he hpfx
    rcases makedirs_mem hmk3 e he with h5 | ⟨-, hpfx'⟩
    · rcases makedirs_mem hmk2 e h5 with h4 | ⟨-, hpfx''⟩
      · rcases makedirs_mem hmk1 e h4 with h3 | ⟨-, hpfx'''⟩
        · exact absurd ((List.prefix_append d [("dataset")]).trans hpfx) (hno3 e h3)
        · exact absurd (hpfx.trans hpfx''') not_snoc_prefix_self
      · have h := snoc_inj_of_prefix (hpfx.trans hpfx'')
        exact absurd h (by decide)
    · exact hpfx'.eq_of_length (Nat.le_antisymm hpfx'.length_le hpfx.length_le)
  · have hs : (kindOf fs5 (d ++ [("model")])).isSome := by
      rw [makedirs_kindOf_self hmk2]
      rfl
    rw [makedirs_kindOf_pres hmk3 hs]
    exact makedirs_kindOf_self hmk2
  · intro e he hpfx
    rcases makedirs_mem hmk3 e he with h5 | ⟨-, hpfx'⟩
    · rcases makedirs_mem hmk2 e h5 with h4 | ⟨-, hpfx''⟩
      · rcases makedirs_mem hmk1 e h4 with h3 | ⟨-, hpfx'''⟩
        · exact absurd ((List.prefix_append d [("model")]).trans hpfx) (hno3 e h3)
        · exact absurd (hpfx.trans hpfx''') not_snoc_prefix_self
      · exact hpfx''.eq_of_length (Nat.le_antisymm hpfx''.length_le hpfx.length_le)
    · have h := snoc_inj_of_prefix (hpfx.trans hpfx')
      exact absurd h (by decide)

/-- Running `_initialize_log_dir` on a well-formed filesystem whose strict
ancestors of the log directory are directories or absent: it succeeds and
leaves empty `dataset` and `model` directories, whatever lived at the log
directory before. -/
theorem init_log_dir_spec {fs : FileSystem} {d : FPath} (hd : d ≠ [])
    (hwf : WfFs fs)
    (hanc : ∀ q ∈ strictAncestors d, existsNonDir fs q = false) :
    ∃ fs', init_log_dir fs d = Except.ok fs' ∧
      isEmptyDir fs' (d ++ [("dataset")]) ∧ isEmptyDir fs' (d ++ [("model")]) := by
  have hwf1 : WfFs (remove_file_dir fs (d ++ [("dataset")])).2 :=
    remove_file_dir_wf hwf
  have hwf2 : WfFs (remove_file_dir (remove_file_dir fs (d ++ [("dataset")])).2
      (d ++ [("model")])).2 := remove_file_dir_wf hwf1
  have hno3 : ∀ e ∈ (remove_file_dir (remove_file_dir (remove_file_dir fs
      (d ++ [("dataset")])).2 (d ++ [("model")])).2 d).2, ¬ d <+: e.1 :=
    remove_file_dir_not_under hwf2 hd
  have hsub3 : ∀ e ∈ (remove_file_dir (remove_file_dir (remove_file_dir fs
      (d ++ [("dataset")])).2 (d ++ [("model")])).2 d).2, e ∈ fs := by
    intro e he
    exact mem_remove_file_dir (mem_remove_file_dir (mem_remove_file_dir he))
  have hgood3 : ∀ q, q <+: d → q ≠ [] → q ≠ d → ∀ k,
      (q, k) ∈ (remove_file_dir (remove_file_dir (remove_file_dir fs
        (d ++ [("dataset")])).2 (d ++ [("model")])).2 d).2 → k = NodeKind.dir := by
    intro q hq hq1 hq2 k hk
    exact existsNonDir_eq_false_iff.mp
      (hanc q (mem_strictAncestors.mpr ⟨hq, hq1, hq2⟩)) k
      (kindOf_of_mem_unique hwf.1 (hsub3 (q, k) hk))
  obtain ⟨fs4, fs5, fs6, hmk1, hmk2, hmk3, hds, hmd⟩ :=
    makedirs_three_spec hno3 hgood3
  exact ⟨fs6, init_log_dir_eq hmk1 hmk2 hmk3, hds, hmd⟩

/-- Function `childNameOf` succeeds exactly on the direct children of `d`. -/
theorem childNameOf_eq_some {d p : FPath} {f : String} :
    childNameOf d p = some f ↔ p = d ++ [f] := by
  constructor
  · intro h
    cases hl : p.getLast? with
    | none =>
      simp only [childNameOf, hl] at h
      exact absurd h (by simp)
    | some g =>
      simp only [childNameOf, hl] at h
      by_cases hp : p = d ++ [g]
      · rw [if_pos hp] at h
        obtain rfl := Option.some.inj h
        exact hp
      · rw [if_neg hp] at h
        exact absurd h (by simp)
  · rintro rfl
    simp [childNameOf, List.getLast?_concat]

/-- The names `childFileNames` collects are exactly the non-directory
children of `d`. -/
theorem mem_childFileNames {d : FPath} {f : String} :
    ∀ {fs : FileSystem}, f ∈ childFileNames d fs ↔
      ∃ k, (d ++ [f], k) ∈ fs ∧ k ≠ NodeKind.dir := by
  intro fs
  induction fs with
  | nil => simp [childFileNames]
  | cons e rest ih =>
    cases hc : childNameOf d e.1 with
    | none =>
      simp only [childFileNames, hc]
      rw [ih]
      constructor
      · rintro ⟨k, hk, hkd⟩
        exact ⟨k, List.mem_cons_of_mem _ hk, hkd⟩
      · rintro ⟨k, hk, hkd⟩
        rcases List.mem_cons.mp hk with heq | hk'
        · exfalso
          have hsome : childNameOf d e.1 = some f := by
            rw [← heq]
            exact childNameOf_eq_some.mpr rfl
          rw [hc] at hsome
          exact absurd hsome (by simp)
        · exact ⟨k, hk', hkd⟩
    | some g =>
      by_cases hdir : e.2 = NodeKind.dir
      · simp only [childFileNames, hc, if_pos hdir]
        rw [ih]
        constructor
        · rintro ⟨k, hk, hkd⟩
          exact ⟨k, List.mem_cons_of_mem _ hk, hkd⟩
        · rintro ⟨k, hk, hkd⟩
          rcases List.mem_cons.mp hk with heq | hk'
          · exfalso
            apply hkd
            rw [← heq] at hdir
            exact hdir
          · exact ⟨k, hk', hkd⟩
      · have he1 : e.1 = d ++ [g] := childNameOf_eq_some.mp hc
        simp only [childFileNames, hc, if_neg hdir]
        constructor
        · intro hmem
          rcases List.mem_cons.mp hmem with rfl | hf'
          · refine ⟨e.2, ?_, hdir⟩
            rw [← he1]
            exact List.mem_cons_self e rest
          · obtain ⟨k, hk, hkd⟩ := ih.mp hf'
            exact ⟨k, List.mem_cons_of_mem _ hk, hkd⟩
        · rintro ⟨k, hk, hkd⟩
          rcases List.mem_cons.mp hk with heq | hk'
          · have hfg : d ++ [f] = d ++ [g] := by
              rw [← he1]
              exact congrArg Prod.fst heq
            have : f = g := by
              simpa using List.append_cancel_left hfg
            subst this
            exact List.mem_cons_self _ _
          · exact List.mem_cons_of_mem _ (ih.mpr ⟨k, hk', hkd⟩)

/-- The successful outcome of the directory enumeration. -/
theorem get_file_names_ok_iff {fs : FileSystem} {d : FPath} {ns : List String} :
    get_file_names_in_directory fs d = Except.ok ns ↔
      kindOf fs d = some NodeKind.dir ∧ ns = childFileNames d fs := by
  by_cases h : kindOf fs d = some NodeKind.dir
  · rw [get_file_names_in_directory, if_pos h]
    constructor
    · intro hns
      exact ⟨h, (Except.ok.inj hns).symm⟩
    · rintro ⟨-, rfl⟩
      rfl
  · rw [get_file_names_in_directory, if_neg h]
    constructor
    · intro hns
      exact absurd hns (by simp)
    · rintro ⟨hd, -⟩
      exact absurd hd h

/-- Deleting the alias-less versions is idempotent. -/
theorem delete_useless_model_idem (vs : List Version) :
    delete_useless_model (delete_useless_model vs) = delete_useless_model vs := by
  induction vs with
  | nil => rfl
  | cons v rest ih =>
    by_cases hv : v.aliases.length = 0
    · rw [delete_useless_model, if_pos hv, ih]
    · rw [delete_useless_model, if_neg hv, delete_useless_model, if_neg hv, ih]

/-- After one cleanup run nothing alias-less remains to delete. -/
theorem deletedVersions_delete_useless (vs : List Version) :
    deletedVersions (delete_useless_model vs) = [] := by
  induction vs with
  | nil => rfl
  | cons v rest ih =>
    by_cases hv : v.aliases.length = 0
    · rw [delete_useless_model, if_pos hv]
      exact ih
    · rw [delete_useless_model, if_neg hv, deletedVersions, if_neg hv]
      exact ih

/-- Evaluation of `log_model` on a successful directory enumeration. -/
theorem log_model_eq {base : FPath} {lg : WandbLogger} {fs : FileSystem}
    {now : DateTime} {finished : Bool} {rs : RemoteState} {ns : List String}
    (h : get_file_names_in_directory fs (modelDirPath base lg.project_name) =
      Except.ok ns) :
    log_model base lg fs now finished rs = Except.ok (
      if finished then
        { records := rs.records,
          uploads := rs.uploads ++ [({ name := ("model"), type := ("model"), files := ns },
            [("latest"), ("finished-") ++ get_formatted_date_time now])],
          versions := delete_useless_model (rs.versions ++
            [{ aliases := [("latest"), ("finished-") ++ get_formatted_date_time now] }]) }
      else
        { records := rs.records,
          uploads := rs.uploads ++ [({ name := ("model"), type := ("model"), files := ns },
            [("latest")])],
          versions := rs.versions ++ [{ aliases := [("latest")] }] }) := by
  simp only [log_model, h, log_artifact]
  cases finished <;> rfl

/-- C1: every `log_model(finished=False)` call uploads the artifact with
alias list exactly `["latest"]`, and every `log_model(finished=True)` call
uploads it with exactly `["latest", "finished-<timestamp>"]` where the
second tag is formatted from the current date-time; in the finished case
the cleanup of alias-less remote versions runs after the upload. -/
theorem claim_C1 (base : FPath) (lg : WandbLogger) (fs : FileSystem) (now : DateTime)
    (finished : Bool) (rs : RemoteState) (ns : List String)
    (h : get_file_names_in_directory fs (modelDirPath base lg.project_name) =
      Except.ok ns) :
    ∃ rs', log_model base lg fs now finished rs = Except.ok rs' ∧
      rs'.uploads = rs.uploads ++
        [({ name := ("model"), type := ("model"), files := ns },
          if finished then [("latest"), ("finished-") ++ get_formatted_date_time now]
          else [("latest")])] ∧
      (finished = true →
        rs'.versions = delete_useless_model (rs.versions ++
          [{ aliases := [("latest"), ("finished-") ++ get_formatted_date_time now] }])) ∧
      (finished = false → rs'.versions = rs.versions ++ [{ aliases := [("latest")] }]) := by
  refine ⟨_, log_model_eq h, ?_, ?_, ?_⟩
  · cases finished <;> rfl
  · intro hf
    subst hf
    rfl
  · intro hf
    subst hf
    rfl

/-- Witness for C1 at a concrete state: one model file, `finished=True`. -/
theorem claim_C1_witness :
    ∃ rs', log_model [] { project_name := ("p") }
        [((["log", "p", "model"] : FPath), NodeKind.dir),
         (["log", "p", "model", "a.pt"], NodeKind.file)]
        { day := 5, month := 5, year := 2021, hour := 22, minute := 14, second := 31 }
        true { records := [], uploads := [], versions := [] } = Except.ok rs' ∧
      rs'.uploads = ([] : List (Artifact × List String)) ++
        [({ name := ("model"), type := ("model"), files := [("a.pt")] },
          if true then [("latest"), ("finished-") ++ get_formatted_date_time
            { day := 5, month := 5, year := 2021, hour := 22, minute := 14, second := 31 }]
          else [("latest")])] ∧
      (true = true →
        rs'.versions = delete_useless_model (([] : List Version) ++
          [{ aliases := [("latest"), ("finished-") ++ get_formatted_date_time
            { day := 5, month := 5, year := 2021, hour := 22, minute := 14, second := 31 }] }])) ∧
      (true = false → rs'.versions = ([] : List Version) ++ [{ aliases := [("latest")] }]) :=
  claim_C1 [] { project_name := ("p") }
    [((["log", "p", "model"] : FPath), NodeKind.dir),
     (["log", "p", "model", "a.pt"], NodeKind.file)]
    { day := 5, month := 5, year := 2021, hour := 22, minute := 14, second := 31 }
    true { records := [], uploads := [], versions := [] } [("a.pt")] (by decide)

/-- C2: constructing the façade from any configuration carrying
`"logger_name"`, on any well-formed filesystem whose strict ancestors of
the log path are directories or absent, succeeds and leaves an empty
`dataset/` and an empty `model/` directory under the derived log path,
whatever existed at that path before. -/
theorem claim_C2 (base : FPath) (config : Config) (fs : FileSystem) (name : String)
    (hcfg : lookupKey config ("logger_name") = some name)
    (hwf : WfFs fs)
    (hanc : ∀ q ∈ strictAncestors (logDirPath base name), existsNonDir fs q = false) :
    ∃ lg fs', WandbLogger.init base config fs = Except.ok (lg, fs') ∧
      isEmptyDir fs' (datasetDirPath base name) ∧
      isEmptyDir fs' (modelDirPath base name) := by
  have hd : logDirPath base name ≠ [] := by
    simp [logDirPath]
  obtain ⟨fs', hrun, hds, hmd⟩ := init_log_dir_spec hd hwf hanc
  exact ⟨{ project_name := name }, fs',
    by simp only [WandbLogger.init, hcfg, hrun], hds, hmd⟩

/-- Witness for C2 at a concrete filesystem with stale content (a model
checkpoint and a stray link) under the log path. -/
theorem claim_C2_witness :
    ∃ lg fs', WandbLogger.init [] [(("logger_name"), ("p"))]
        [((["log"] : FPath), NodeKind.dir), (["log", "p"], NodeKind.dir),
         (["log", "p", "model"], NodeKind.dir),
         (["log", "p", "model", "w.pt"], NodeKind.file),
         (["log", "p", "junk"], NodeKind.link)] = Except.ok (lg, fs') ∧
      isEmptyDir fs' (datasetDirPath [] ("p")) ∧
      isEmptyDir fs' (modelDirPath [] ("p")) :=
  claim_C2 [] [(("logger_name"), ("p"))]
    [((["log"] : FPath), NodeKind.dir), (["log", "p"], NodeKind.dir),
     (["log", "p", "model"], NodeKind.dir),
     (["log", "p", "model", "w.pt"], NodeKind.file),
     (["log", "p", "junk"], NodeKind.link)]
    ("p") (by decide) (by decide) (by decide)

/-- C3: `delete_useless_model` is idempotent on every remote version set:
a second run leaves the version set obtained from the first run unchanged
and deletes nothing. -/
theorem claim_C3 (vs : List Version) :
    delete_useless_model (delete_useless_model vs) = delete_useless_model vs ∧
    deletedVersions (delete_useless_model vs) = [] :=
  ⟨delete_useless_model_idem vs, deletedVersions_delete_useless vs⟩

/-- C4: every `log_info(epoch, key, value)` call sends exactly one record
to the remote session, the dict `{"Iteration": epoch, key: value}`; in
particular `log_info(3, "loss", 0.42)` sends the single record
`{"Iteration": 3, "loss": 0.42}`.  The record goes out on the call itself:
the remote record stream grows by exactly that one record, with no local
buffering. -/
theorem claim_C4 (rs : RemoteState) (epoch : Value) (key : String) (value : Value) :
    (log_info rs epoch key value).records =
      rs.records ++ [pyDictInsert (pyDictInsert [] ("Iteration") epoch) key value] ∧
    (log_info rs epoch key value).records.length = rs.records.length + 1 ∧
    (log_info rs (Value.int 3) ("loss") (Value.rat (0.42 : Rat))).records =
      rs.records ++ [[(("Iteration"), Value.int 3), (("loss"), Value.rat (0.42 : Rat))]] := by
  refine ⟨rfl, ?_, rfl⟩
  simp [log_info, wandb_log]

/-- C5: when the model directory cannot be enumerated (it is missing or
not a directory), the file-listing step returns the process-termination
outcome `ProcExit.exit` — not a recoverable error value — and `log_model`
ends in the same process termination. -/
theorem claim_C5 (base : FPath) (lg : WandbLogger) (fs : FileSystem) (now : DateTime)
    (finished : Bool) (rs : RemoteState)
    (h : kindOf fs (modelDirPath base lg.project_name) ≠ some NodeKind.dir) :
    get_file_names_in_directory fs (modelDirPath base lg.project_name) =
      Except.error ProcExit.exit ∧
    log_model base lg fs now finished rs = Except.error ProcExit.exit := by
  have h1 : get_file_names_in_directory fs (modelDirPath base lg.project_name) =
      Except.error ProcExit.exit := by
    rw [get_file_names_in_directory, if_neg h]
  exact ⟨h1, by simp only [log_model, h1]⟩

/-- Witness for C5 on the empty filesystem. -/
theorem claim_C5_witness :
    get_file_names_in_directory [] (modelDirPath [] ("p")) =
      Except.error ProcExit.exit ∧
    log_model [] { project_name := ("p") } []
      { day := 1, month := 1, year := 2021, hour := 0, minute := 0, second := 0 }
      false { records := [], uploads := [], versions := [] } =
      Except.error ProcExit.exit :=
  claim_C5 [] { project_name := ("p") } []
    { day := 1, month := 1, year := 2021, hour := 0, minute := 0, second := 0 }
    false { records := [], uploads := [], versions := [] } (by decide)

/-- C6: constructing the façade from a configuration without the
`"logger_name"` key fails with the `KeyError` of `config["logger_name"]`
(the `ConfigurationError` of the specification) before anything else
happens. -/
theorem claim_C6 (base : FPath) (config : Config) (fs : FileSystem)
    (h : lookupKey config ("logger_name") = none) :
    WandbLogger.init base config fs = Except.error InitError.keyError := by
  simp only [WandbLogger.init, h]

/-- Witness for C6 with a configuration that has other keys but not
`"logger_name"`. -/
theorem claim_C6_witness :
    WandbLogger.init [] [(("seed"), ("0"))] [] = Except.error InitError.keyError :=
  claim_C6 [] [(("seed"), ("0"))] [] (by decide)

/-- C7: a `load_model` reference that does not resolve to an
artifact-handle attribute of the instance fails with `AttributeError` and
downloads nothing; a resolving reference downloads the artifact's files
into the local model directory and returns that directory path. -/
theorem claim_C7 (attrs : List (String × Artifact)) (base : FPath) (lg : WandbLogger)
    (fs : FileSystem) (s : String) :
    (evalSelfAttr attrs (("self._") ++ s.drop 11) = none →
      load_model attrs base lg fs s = Except.error LoadError.attributeError) ∧
    (∀ a, evalSelfAttr attrs (("self._") ++ s.drop 11) = some a →
      kindOf fs (modelDirPath base lg.project_name) = some NodeKind.dir →
      load_model attrs base lg fs s =
        Except.ok (downloadArtifact fs (modelDirPath base lg.project_name) a,
          modelDirPath base lg.project_name)) := by
  constructor
  · intro h
    delta load_model
    simp only [h]
  · intro a ha hdir
    have hne : ∀ e ∈ a.files.map
        (fun f => (modelDirPath base lg.project_name ++ [f], NodeKind.file)),
        e.1 ≠ modelDirPath base lg.project_name := by
      intro e he
      obtain ⟨f, hf, rfl⟩ := List.mem_map.mp he
      intro hc
      simp only at hc
      exact self_ne_snoc hc.symm
    have hdir1 : kindOf (downloadArtifact fs (modelDirPath base lg.project_name) a)
        (modelDirPath base lg.project_name) = some NodeKind.dir := by
      rw [downloadArtifact, kindOf_append_of_ne hne, hdir]
    have hok : get_file_names_in_directory
        (downloadArtifact fs (modelDirPath base lg.project_name) a)
        (modelDirPath base lg.project_name) =
        Except.ok (childFileNames (modelDirPath base lg.project_name)
          (downloadArtifact fs (modelDirPath base lg.project_name) a)) := by
      rw [get_file_names_in_directory, if_pos hdir1]
    delta load_model
    simp only [ha, hok]

/-- Witness for C7: an unresolvable reference errors without touching the
filesystem, and a resolvable one downloads into the model directory. -/
theorem claim_C7_witness :
    load_model [] [] { project_name := ("p") } [] ("0123456789.a1") =
      Except.error LoadError.attributeError ∧
    load_model [(("_a1"), { name := ("m"), type := ("model"), files := [("w.pt")] })]
      [] { project_name := ("p") } [((["log", "p", "model"] : FPath), NodeKind.dir)]
      ("0123456789.a1") =
      Except.ok (downloadArtifact [((["log", "p", "model"] : FPath), NodeKind.dir)]
        (modelDirPath [] ("p"))
        { name := ("m"), type := ("model"), files := [("w.pt")] },
        modelDirPath [] ("p")) :=
  ⟨(claim_C7 [] [] { project_name := ("p") } [] ("0123456789.a1")).1 (by decide),
   (claim_C7 [(("_a1"), { name := ("m"), type := ("model"), files := [("w.pt")] })]
      [] { project_name := ("p") } [((["log", "p", "model"] : FPath), NodeKind.dir)]
      ("0123456789.a1")).2
      { name := ("m"), type := ("model"), files := [("w.pt")] } (by decide) (by decide)⟩

/-- C8: a successful `log_model` packages into the uploaded artifact
exactly the files enumerated in the local model directory: the artifact's
file list is the enumeration, and a name is enumerated precisely when a
non-directory child of that name sits in the model directory. -/
theorem claim_C8 (base : FPath) (lg : WandbLogger) (fs : FileSystem) (now : DateTime)
    (finished : Bool) (rs : RemoteState) (ns : List String)
    (h : get_file_names_in_directory fs (modelDirPath base lg.project_name) =
      Except.ok ns) :
    ∃ rs', log_model base lg fs now finished rs = Except.ok rs' ∧
      rs'.uploads = rs.uploads ++
        [({ name := ("model"), type := ("model"), files := ns },
          if finished then [("latest"), ("finished-") ++ get_formatted_date_time now]
          else [("latest")])] ∧
      ∀ f, f ∈ ns ↔ ∃ k,
        (modelDirPath base lg.project_name ++ [f], k) ∈ fs ∧ k ≠ NodeKind.dir := by
  obtain ⟨hdir, hns⟩ := get_file_names_ok_iff.mp h
  refine ⟨_, log_model_eq h, ?_, ?_⟩
  · cases finished <;> rfl
  · intro f
    rw [hns]
    exact mem_childFileNames

/-- Witness for C8: a model directory holding two checkpoint files and a
subdirectory; only the two files are packaged. -/
theorem claim_C8_witness :
    ∃ rs', log_model [] { project_name := ("p") }
        [((["log", "p", "model"] : FPath), NodeKind.dir),
         (["log", "p", "model", "a.pt"], NodeKind.file),
         (["log", "p", "model", "sub"], NodeKind.dir),
         (["log", "p", "model", "b.pt"], NodeKind.file)]
        { day := 1, month := 2, year := 2022, hour := 3, minute := 4, second := 5 }
        false { records := [], uploads := [], versions := [] } = Except.ok rs' ∧
      rs'.uploads = ([] : List (Artifact × List String)) ++
        [({ name := ("model"), type := ("model"), files := [("a.pt"), ("b.pt")] },
          if false then [("latest"), ("finished-") ++ get_formatted_date_time
            { day := 1, month := 2, year := 2022, hour := 3, minute := 4, second := 5 }]
          else [("latest")])] ∧
      ∀ f, f ∈ [("a.pt"), ("b.pt")] ↔ ∃ k,
        (modelDirPath [] ("p") ++ [f], k) ∈
          [((["log", "p", "model"] : FPath), NodeKind.dir),
           (["log", "p", "model", "a.pt"], NodeKind.file),
           (["log", "p", "model", "sub"], NodeKind.dir),
           (["log", "p", "model", "b.pt"], NodeKind.file)] ∧ k ≠ NodeKind.dir :=
  claim_C8 [] { project_name := ("p") }
    [((["log", "p", "model"] : FPath), NodeKind.dir),
     (["log", "p", "model", "a.pt"], NodeKind.file),
     (["log", "p", "model", "sub"], NodeKind.dir),
     (["log", "p", "model", "b.pt"], NodeKind.file)]
    { day := 1, month := 2, year := 2022, hour := 3, minute := 4, second := 5 }
    false { records := [], uploads := [], versions := [] } [("a.pt"), ("b.pt")]
    (by decide)

/-- C9: constructing the façade from `{"logger_name": "test_exp"}` gives a
log directory `<base>/log/test_exp`, and for every project name the
dataset and model directories are exactly the log directory extended with
`/dataset` and `/model`. -/
theorem claim_C9 (base : String) (bp : FPath) (fs fs' : FileSystem) (lg : WandbLogger)
    (h : WandbLogger.init bp [(("logger_name"), ("test_exp"))] fs =
      Except.ok (lg, fs')) :
    lg.log_dir base = base ++ "/log/test_exp" ∧
    ∀ lg' : WandbLogger,
      WandbLogger.log_dataset_dir lg' base = lg'.log_dir base ++ "/dataset" ∧
      WandbLogger.log_model_dir lg' base = lg'.log_dir base ++ "/model" := by
  refine ⟨?_, fun lg' => ⟨rfl, rfl⟩⟩
  have hlg : lg = { project_name := ("test_exp") } := by
    rw [WandbLogger.init] at h
    cases hinit : init_log_dir fs (logDirPath bp ("test_exp")) with
    | error e =>
      simp only [show lookupKey [(("logger_name"), ("test_exp"))] ("logger_name") =
        some ("test_exp") from rfl, hinit] at h
      exact absurd h (by simp)
    | ok fs'' =>
      simp only [show lookupKey [(("logger_name"), ("test_exp"))] ("logger_name") =
        some ("test_exp") from rfl, hinit, Except.ok.injEq, Prod.mk.injEq] at h
      exact h.1.symm
  subst hlg
  show get_log_dir base ("test_exp") = base ++ "/log/test_exp"
  rw [get_log_dir, String.append_assoc]
  rfl

/-- Witness for C9 with base string `"B"` and the empty filesystem. -/
theorem claim_C9_witness :
    WandbLogger.log_dir { project_name := ("test_exp") } ("B") =
      ("B") ++ "/log/test_exp" ∧
    ∀ lg' : WandbLogger,
      WandbLogger.log_dataset_dir lg' ("B") = lg'.log_dir ("B") ++ "/dataset" ∧
      WandbLogger.log_model_dir lg' ("B") = lg'.log_dir ("B") ++ "/model" :=
  claim_C9 ("B") [] [] _ { project_name := ("test_exp") } rfl

/-- C10: a `log_info` call whose key is the string `"Iteration"` sends a
record with a single field `"Iteration"` holding the caller's value: the
dict literal silently overwrites the epoch index. -/
theorem claim_C10 (rs : RemoteState) (epoch : Value) (value : Value) :
    (log_info rs epoch ("Iteration") value).records =
      rs.records ++ [[(("Iteration"), value)]] := by
  rfl

end Wb
